import Mathlib

/-!
Shallow embedding of the `LitPKPExecutor` ERC-7579 executor module
(`src/contracts/LitPKPExecutor.sol`) and proofs of the specified properties
of its install/uninstall lifecycle, operation-hash construction, signature
verification path, and reentrancy exclusion.

Modelling conventions:
* Ethereum addresses (`uint160`) and `uint256`/`bytes32` words are naturals;
  `0` is the zero address.  Byte strings (`bytes`) are `List Nat` with each
  element a byte value.
* Contract storage is a pair of total maps, zero-initialised, mirroring the
  two Solidity mappings `accountPKPs` and `pkpToAccount`.
* A reverting call is modelled as returning the error kind together with the
  caller-visible post-state, which is the entry state (EVM reverts discard
  all writes of the invocation).
* `keccak256` and `ECDSA.recover` are parameters of the execution
  environment: every claim proved here is independent of the concrete hash
  function, and recovery is an abstract partial function.  For
  `ECDSA.recover` (OpenZeppelin v5), `some a` models successful recovery of
  address `a`, and `none` models the library reverting on a malformed
  signature (wrong length, invalid `v`, `s` out of the lower half, or a
  zero recovery result) with one of its own `ECDSAInvalidSignature*` errors.
* The EVM guarantees `msg.sender` is never the zero address (it is either a
  key-derived externally-owned address or a deployed contract address), so
  reachability steps assume a nonzero caller.
-/

namespace LitPKP

/-- Ethereum addresses (`uint160`), as naturals; `0` is the zero address. -/
abbrev Address := Nat

/-- 256-bit words (`uint256` / `bytes32`), as naturals. -/
abbrev Word := Nat

/-- One byte of a `bytes` value. -/
abbrev Byte := Nat

/-- `uint256 public constant MODULE_TYPE = 2` — the ERC-7579 executor type tag. -/
def MODULE_TYPE : Nat := 2

/-- The `PKPInfo` struct stored per smart account. -/
structure PKPInfo where
  pkpEthAddress : Address
  pkpTokenId : Word
  isInstalled : Bool
deriving Repr, DecidableEq

/-- The zero-initialised storage value of a `PKPInfo` slot (no registration). -/
def PKPInfo.empty : PKPInfo := ⟨0, 0, false⟩

/-- The errors a call into the module can revert with.  The first five are the
contract's own custom errors; `ECDSARecoveryError` stands for the family of
`ECDSAInvalidSignature` / `ECDSAInvalidSignatureLength` /
`ECDSAInvalidSignatureS` errors raised inside OpenZeppelin's `ECDSA.recover`
on a malformed signature; `ReentrancyGuardReentrantCall` is the error raised
by the inherited `ReentrancyGuard` when `nonReentrant` is re-entered. -/
inductive ContractError where
  | InvalidSignature
  | ExecutionFailed
  | ModuleNotInstalled
  | ModuleAlreadyInstalled
  | UnauthorizedPKP
  | ECDSARecoveryError
  | ReentrancyGuardReentrantCall
deriving Repr, DecidableEq

/-- The module's registry storage: `mapping(address => PKPInfo) accountPKPs`
and `mapping(address => address) pkpToAccount`, both zero-initialised. -/
@[ext]
structure Registry where
  accountPKPs : Address → PKPInfo
  pkpToAccount : Address → Address

/-- Storage at deployment: both mappings zero-initialised. -/
def Registry.empty : Registry := ⟨fun _ => PKPInfo.empty, fun _ => 0⟩

/-- Full contract state: the registry plus the `ReentrancyGuard` status flag
(`locked = true` iff `_status == ENTERED`). -/
structure ContractState where
  registry : Registry
  locked : Bool

/-- `function onInstall(bytes calldata data) external` with `data` already
abi-decoded to `(pkpEthAddress, pkpTokenId)` and `sender = msg.sender`.
Checks in source order: `ModuleAlreadyInstalled` if the caller already has a
registration, then `UnauthorizedPKP` if the PKP address is claimed, else
writes both mappings. -/
def onInstall (sender pkpEthAddress : Address) (pkpTokenId : Word)
    (s : Registry) : Except ContractError Unit × Registry :=
  if (s.accountPKPs sender).isInstalled then
    (.error .ModuleAlreadyInstalled, s)
  else if s.pkpToAccount pkpEthAddress ≠ 0 then
    (.error .UnauthorizedPKP, s)
  else
    (.ok (),
      { accountPKPs := fun a =>
          if a = sender then
            { pkpEthAddress := pkpEthAddress, pkpTokenId := pkpTokenId,
              isInstalled := true }
          else s.accountPKPs a,
        pkpToAccount := fun p =>
          if p = pkpEthAddress then sender else s.pkpToAccount p })

/-- `function onUninstall(bytes calldata) external` with `sender = msg.sender`.
Reverts `ModuleNotInstalled` when no registration exists; otherwise reads the
registered PKP address, then deletes the `accountPKPs` record and the
`pkpToAccount` reverse entry. -/
def onUninstall (sender : Address) (s : Registry) :
    Except ContractError Unit × Registry :=
  if (s.accountPKPs sender).isInstalled then
    (.ok (),
      { accountPKPs := fun a =>
          if a = sender then PKPInfo.empty else s.accountPKPs a,
        pkpToAccount := fun p =>
          if p = (s.accountPKPs sender).pkpEthAddress then 0
          else s.pkpToAccount p })
  else
    (.error .ModuleNotInstalled, s)

/-- `function isModuleInstalled(address account, uint256 moduleTypeId)` —
false for any type id other than `MODULE_TYPE`, else the stored flag. -/
def isModuleInstalled (s : Registry) (account : Address)
    (moduleTypeId : Nat) : Bool :=
  if moduleTypeId ≠ MODULE_TYPE then false
  else (s.accountPKPs account).isInstalled

/-- `function getPKPInfo(address account)` — a pure read of the three fields
of the account's `PKPInfo` slot. -/
def getPKPInfo (s : Registry) (account : Address) :
    Address × Word × Bool :=
  ((s.accountPKPs account).pkpEthAddress,
   (s.accountPKPs account).pkpTokenId,
   (s.accountPKPs account).isInstalled)

/-- Big-endian byte encoding of a natural in exactly `w` bytes, as
`abi.encodePacked` lays out a fixed-width integer (the value taken mod
`256 ^ w`, most significant byte first). -/
def natToBytesBE : Nat → Nat → List Byte
  | 0, _ => []
  | w + 1, n => natToBytesBE w (n / 256) ++ [n % 256]

/-- Read a big-endian byte string back as a natural. -/
def bytesToNat (bs : List Byte) : Nat :=
  bs.foldl (fun acc b => acc * 256 + b) 0

/-- The argument of `keccak256` in `getOperationHash` and
`executeFromExecutor`:
`abi.encodePacked(account, target, value, data, block.chainid, address(this))`
— a 20-byte address, a 20-byte address, a 32-byte word, the raw `data`
bytes, a 32-byte word, and a 20-byte address, concatenated. -/
def encodePackedOperation (account target : Address) (value : Word)
    (data : List Byte) (chainid : Nat) (moduleAddr : Address) : List Byte :=
  natToBytesBE 20 account ++ natToBytesBE 20 target ++
  natToBytesBE 32 value ++ data ++
  natToBytesBE 32 chainid ++ natToBytesBE 20 moduleAddr

/-- The ASCII bytes of `"\x19Ethereum Signed Message:\n32"`, the EIP-191
personal-message header prepended before the second hashing step. -/
def personalMessageHeader : List Byte :=
  [0x19, 0x45, 0x74, 0x68, 0x65, 0x72, 0x65, 0x75, 0x6d, 0x20,
   0x53, 0x69, 0x67, 0x6e, 0x65, 0x64, 0x20, 0x4d, 0x65, 0x73,
   0x73, 0x61, 0x67, 0x65, 0x3a, 0x0a, 0x33, 0x32]

/-- `function getOperationHash(account, target, value, data)` — `keccak256`
of the packed encoding, with `block.chainid` and `address(this)` supplied by
the environment.  `keccak` is the (abstract) Keccak-256 function. -/
def getOperationHash (keccak : List Byte → Word)
    (account target : Address) (value : Word) (data : List Byte)
    (chainid : Nat) (moduleAddr : Address) : Word :=
  keccak (encodePackedOperation account target value data chainid moduleAddr)

/-- `keccak256(abi.encodePacked("\x19Ethereum Signed Message:\n32", operationHash))`. -/
def ethSignedMessageHash (keccak : List Byte → Word) (operationHash : Word) :
    Word :=
  keccak (personalMessageHeader ++ natToBytesBE 32 operationHash)

/-- The behaviour of the forwarded low-level call
`target.call{value: value}(data)`: given the contract state at the moment of
the call (guard held), it either fails — `success == false`, every effect of
the call already rolled back by the EVM, so no state is carried — or
succeeds with return data and the contract state as the call left it (the
target may have re-entered module entry points). -/
abbrev ExtCall := ContractState → Except Unit (List Byte × ContractState)

/-- The execution environment of one invocation: the Keccak-256 function,
OpenZeppelin `ECDSA.recover` (`none` = the library reverts on a malformed
signature), `block.chainid`, and `address(this)`. -/
structure Env where
  keccak : List Byte → Word
  recover : Word → List Byte → Option Address
  chainid : Nat
  self : Address

/-- `function executeFromExecutor(target, value, data, pkpSignature) external
nonReentrant` with `sender = msg.sender`.  In source order: the
`nonReentrant` guard, the installation check, operation-hash construction,
the EIP-191 prefix transform, `ECDSA.recover`, the signer comparison
(reverting `InvalidSignature` on mismatch), then the forwarded call
(reverting `ExecutionFailed` when it fails), returning its return data. -/
def executeFromExecutor (env : Env) (sender target : Address) (value : Word)
    (data pkpSignature : List Byte) (extCall : ExtCall)
    (cs : ContractState) :
    Except ContractError (List Byte) × ContractState :=
  if cs.locked then
    (.error .ReentrancyGuardReentrantCall, cs)
  else
    let pkpInfo := cs.registry.accountPKPs sender
    if pkpInfo.isInstalled then
      let operationHash :=
        getOperationHash env.keccak sender target value data env.chainid env.self
      let ethSignedHash := ethSignedMessageHash env.keccak operationHash
      match env.recover ethSignedHash pkpSignature with
      | none => (.error .ECDSARecoveryError, cs)
      | some recoveredSigner =>
        if recoveredSigner = pkpInfo.pkpEthAddress then
          match extCall { cs with locked := true } with
          | .error () => (.error .ExecutionFailed, cs)
          | .ok (returnData, cs2) => (.ok returnData, { cs2 with locked := false })
        else
          (.error .InvalidSignature, cs)
    else
      (.error .ModuleNotInstalled, cs)

/-- One successful top-level `onInstall` or `onUninstall` invocation.  The EVM
guarantees `msg.sender` is never the zero address, hence the nonzero-caller
hypothesis on installs. -/
inductive RStep : Registry → Registry → Prop where
  | install (sender pkpEthAddress : Address) (pkpTokenId : Word)
      (s s2 : Registry) :
      sender ≠ 0 → onInstall sender pkpEthAddress pkpTokenId s = (.ok (), s2) →
      RStep s s2
  | uninstall (sender : Address) (s s2 : Registry) :
      onUninstall sender s = (.ok (), s2) → RStep s s2

/-- A forwarded-call behaviour is well formed when every registry change it
produces comes from nested invocations of the module's own mutating entry
points (the only code that writes this contract's storage). -/
def ExtCallOK (ext : ExtCall) : Prop :=
  ∀ st rd st2, ext st = .ok (rd, st2) →
    Relation.ReflTransGen RStep st.registry st2.registry

/-- One top-level invocation of any of the three mutating entry points:
an install or uninstall step, or an `executeFromExecutor` invocation (guard
initially free), whose forwarded call only changes the registry through
nested module invocations. -/
inductive Step : Registry → Registry → Prop where
  | reg {s s2 : Registry} : RStep s s2 → Step s s2
  | exec (env : Env) (sender target : Address) (value : Word)
      (data sig : List Byte) (ext : ExtCall)
      (r : Except ContractError (List Byte)) (s : Registry)
      (cs2 : ContractState) :
      ExtCallOK ext →
      executeFromExecutor env sender target value data sig ext ⟨s, false⟩ = (r, cs2) →
      Step s cs2.registry

/-- Registry states reachable from deployment by any sequence of install,
uninstall and executeFromExecutor invocations. -/
def Reachable (s : Registry) : Prop :=
  Relation.ReflTransGen Step Registry.empty s

/-- The two-mapping consistency invariant: an installed account's signer maps
back to it; a claimed signer's claimant is installed with that signer; and
the zero address (never a caller) has no registration. -/
def RegInv (s : Registry) : Prop :=
  (∀ A, (s.accountPKPs A).isInstalled = true →
      s.pkpToAccount (s.accountPKPs A).pkpEthAddress = A) ∧
  (∀ S, s.pkpToAccount S ≠ 0 →
      (s.accountPKPs (s.pkpToAccount S)).isInstalled = true ∧
      (s.accountPKPs (s.pkpToAccount S)).pkpEthAddress = S) ∧
  (s.accountPKPs 0).isInstalled = false

/-- Steps in which the distinguished account `A` never uninstalls: any
successful install by any caller, and any successful uninstall by a caller
other than `A`. -/
inductive StepAvoiding (A : Address) : Registry → Registry → Prop where
  | install (sender p : Address) (k : Word) (s s2 : Registry) :
      sender ≠ 0 → onInstall sender p k s = (.ok (), s2) → StepAvoiding A s s2
  | uninstall (sender : Address) (s s2 : Registry) :
      sender ≠ A → onUninstall sender s = (.ok (), s2) → StepAvoiding A s s2

/-- The registry written by a successful `onInstall` (the success branch of
`onInstall`, as a named value). -/
def installedRegistry (sender p : Address) (k : Word) (s : Registry) : Registry :=
  { accountPKPs := fun a =>
      if a = sender then
        { pkpEthAddress := p, pkpTokenId := k, isInstalled := true }
      else s.accountPKPs a,
    pkpToAccount := fun q =>
      if q = p then sender else s.pkpToAccount q }

/-- Concrete registry used to evaluate the theorems: the state after account
`7` installs with PKP address `9` and token id `1` starting from deployment. -/
def reg1 : Registry :=
  { accountPKPs := fun a =>
      if a = 7 then { pkpEthAddress := 9, pkpTokenId := 1, isInstalled := true }
      else PKPInfo.empty,
    pkpToAccount := fun p => if p = 9 then 7 else 0 }

/-- Concrete environment used to evaluate the theorems: `bytesToNat` stands in
for Keccak-256, and recovery mimics the `ECDSA.recover` shape — it fails
(library revert) on any signature whose length is not 65 bytes, and recovers
address `9` otherwise. -/
def envA : Env :=
  { keccak := bytesToNat,
    recover := fun _ sig => if sig.length = 65 then some 9 else none,
    chainid := 1,
    self := 11 }

/-- A forwarded call that succeeds, returns no data, and leaves the contract
state untouched. -/
def extId : ExtCall := fun st => .ok ([], st)

lemma onInstall_ok {sender p : Address} {k : Word} {s s2 : Registry}
    (h : onInstall sender p k s = (.ok (), s2)) :
    (s.accountPKPs sender).isInstalled = false ∧ s.pkpToAccount p = 0 ∧
    s2 = { accountPKPs := fun a =>
             if a = sender then
               { pkpEthAddress := p, pkpTokenId := k, isInstalled := true }
             else s.accountPKPs a,
           pkpToAccount := fun q =>
             if q = p then sender else s.pkpToAccount q } := by
  unfold onInstall at h
  split at h
  · exact absurd (congrArg Prod.fst h) (by simp)
  · split at h
    · exact absurd (congrArg Prod.fst h) (by simp)
    · next h1 h2 =>
      refine ⟨Bool.eq_false_iff.mpr h1, not_not.mp h2, ?_⟩
      exact (Prod.mk.injEq _ _ _ _ ▸ h).2.symm ▸ rfl

lemma onUninstall_ok {sender : Address} {s s2 : Registry}
    (h : onUninstall sender s = (.ok (), s2)) :
    (s.accountPKPs sender).isInstalled = true ∧
    s2 = { accountPKPs := fun a =>
             if a = sender then PKPInfo.empty else s.accountPKPs a,
           pkpToAccount := fun q =>
             if q = (s.accountPKPs sender).pkpEthAddress then 0
             else s.pkpToAccount q } := by
  unfold onUninstall at h
  split at h
  · next h1 =>
    exact ⟨h1, ((Prod.mk.injEq _ _ _ _ ▸ h).2).symm⟩
  · exact absurd (congrArg Prod.fst h) (by simp)

lemma regInv_install {sender p : Address} {k : Word} {s s2 : Registry}
    (hinv : RegInv s) (hs : sender ≠ 0)
    (h : onInstall sender p k s = (.ok (), s2)) : RegInv s2 := by
  obtain ⟨hfwd, hconv, hzero⟩ := hinv
  obtain ⟨hni, hp0, rfl⟩ := onInstall_ok h
  refine ⟨?_, ?_, ?_⟩
  · intro A hA
    by_cases hAs : A = sender
    · subst hAs
      simp at hA ⊢
    · simp only [hAs, if_neg, ite_false] at hA ⊢
      have h1 := hfwd A hA
      by_cases hEq : (s.accountPKPs A).pkpEthAddress = p
      · exfalso
        rw [hEq, hp0] at h1
        rw [← h1] at hA
        rw [hzero] at hA
        exact absurd hA (by simp)
      · simp [hEq, h1]
  · intro S hS
    by_cases hSp : S = p
    · subst hSp
      simp at hS ⊢
    · simp only [hSp, ite_false] at hS ⊢
      obtain ⟨hi, hpk⟩ := hconv S hS
      have hns : s.pkpToAccount S ≠ sender := by
        intro hEq
        rw [hEq] at hi
        rw [hni] at hi
        exact absurd hi (by simp)
      simp [hns, hi, hpk]
  · have h0s : (0 : Address) ≠ sender := fun hEq => hs hEq.symm
    simp [h0s, hzero]

lemma regInv_uninstall {sender : Address} {s s2 : Registry}
    (hinv : RegInv s) (h : onUninstall sender s = (.ok (), s2)) : RegInv s2 := by
  obtain ⟨hfwd, hconv, hzero⟩ := hinv
  obtain ⟨hinst, rfl⟩ := onUninstall_ok h
  refine ⟨?_, ?_, ?_⟩
  · intro A hA
    by_cases hAs : A = sender
    · subst hAs
      simp [PKPInfo.empty] at hA
    · simp only [hAs, ite_false] at hA ⊢
      have h1 := hfwd A hA
      have hne : (s.accountPKPs A).pkpEthAddress ≠ (s.accountPKPs sender).pkpEthAddress := by
        intro hEq
        rw [hEq] at h1
        rw [hfwd sender hinst] at h1
        exact hAs h1.symm
      simp [hne, h1]
  · intro S hS
    by_cases hSp : S = (s.accountPKPs sender).pkpEthAddress
    · simp [hSp] at hS
    · simp only [hSp, ite_false] at hS ⊢
      obtain ⟨hi, hpk⟩ := hconv S hS
      have hns : s.pkpToAccount S ≠ sender := by
        intro hEq
        rw [hEq] at hpk
        exact hSp hpk.symm
      simp [hns, hi, hpk]
  · by_cases h0 : (0 : Address) = sender <;> simp [h0, hzero, PKPInfo.empty]

lemma regInv_rstep {s s2 : Registry} (hinv : RegInv s) (hstep : RStep s s2) :
    RegInv s2 := by
  cases hstep with
  | install sender p k s s2 hs h => exact regInv_install hinv hs h
  | uninstall sender s s2 h => exact regInv_uninstall hinv h

lemma regInv_rreach {s s2 : Registry} (hinv : RegInv s)
    (h : Relation.ReflTransGen RStep s s2) : RegInv s2 := by
  induction h with
  | refl => exact hinv
  | tail _ hstep ih => exact regInv_rstep ih hstep

lemma exec_registry_cases (env : Env) (sender target : Address) (value : Word)
    (data pkpSignature : List Byte) (ext : ExtCall) (cs : ContractState) :
    (executeFromExecutor env sender target value data pkpSignature ext cs).2.registry
        = cs.registry ∨
    ∃ rd cs2, ext { cs with locked := true } = .ok (rd, cs2) ∧
      (executeFromExecutor env sender target value data pkpSignature ext cs).2.registry
        = cs2.registry := by
  by_cases hl : cs.locked
  · left
    simp [executeFromExecutor, hl]
  · by_cases hi : (cs.registry.accountPKPs sender).isInstalled
    · rcases hrec : env.recover
        (ethSignedMessageHash env.keccak
          (getOperationHash env.keccak sender target value data env.chainid env.self))
        pkpSignature with _ | a
      · left
        simp [executeFromExecutor, hl, hi, hrec]
      · by_cases hsig : a = (cs.registry.accountPKPs sender).pkpEthAddress
        · rcases hext : ext { cs with locked := true } with u | ⟨rd, cs2⟩
          · left
            simp [executeFromExecutor, hl, hi, hrec, hsig, hext]
          · right
            exact ⟨rd, cs2, rfl,
              by simp [executeFromExecutor, hl, hi, hrec, hsig, hext]⟩
        · left
          simp [executeFromExecutor, hl, hi, hrec, hsig]
    · left
      simp [executeFromExecutor, hl, hi]

lemma regInv_step {s s2 : Registry} (hinv : RegInv s) (hstep : Step s s2) :
    RegInv s2 := by
  cases hstep with
  | reg h => exact regInv_rstep hinv h
  | exec env sender target value data sig ext r s cs2 hok hexec =>
    have hcases := exec_registry_cases env sender target value data sig ext ⟨s, false⟩
    rw [hexec] at hcases
    rcases hcases with heq | ⟨rd, cs3, hext, heq⟩
    · rw [heq]
      exact hinv
    · rw [heq]
      exact regInv_rreach hinv (hok _ _ _ hext)

lemma regInv_empty : RegInv Registry.empty := by
  refine ⟨?_, ?_, ?_⟩ <;> simp [RegInv, Registry.empty, PKPInfo.empty]

lemma regInv_reachable {s : Registry} (h : Reachable s) : RegInv s := by
  induction h with
  | refl => exact regInv_empty
  | tail _ hstep ih => exact regInv_step ih hstep

lemma onInstall_succeeds {sender p : Address} {k : Word} {s : Registry}
    (h1 : (s.accountPKPs sender).isInstalled = false)
    (h2 : s.pkpToAccount p = 0) :
    onInstall sender p k s = (.ok (), installedRegistry sender p k s) := by
  simp [onInstall, installedRegistry, h1, h2]

lemma install1 : onInstall 7 9 1 Registry.empty = (.ok (), reg1) := rfl

lemma onInstall_already {sender : Address} {s : Registry} (p : Address) (k : Word)
    (h : (s.accountPKPs sender).isInstalled = true) :
    onInstall sender p k s = (.error .ModuleAlreadyInstalled, s) := by
  simp [onInstall, h]

lemma onInstall_claimed {sender p : Address} {s : Registry} (k : Word)
    (h1 : (s.accountPKPs sender).isInstalled = false)
    (h2 : s.pkpToAccount p ≠ 0) :
    onInstall sender p k s = (.error .UnauthorizedPKP, s) := by
  simp [onInstall, h1, h2]

lemma exec_locked (env : Env) (sender target : Address) (value : Word)
    (data sig : List Byte) (ext : ExtCall) {cs : ContractState}
    (h : cs.locked = true) :
    executeFromExecutor env sender target value data sig ext cs =
      (.error .ReentrancyGuardReentrantCall, cs) := by
  simp [executeFromExecutor, h]

/-- C5: when the caller account has no registration, `executeFromExecutor`
reverts `ModuleNotInstalled` with the state unchanged, for every recovery
function, signature and forwarded-call behaviour — so the failure happens
before any signature verification or forwarded call, regardless of signature
validity. -/
theorem executeFromExecutor_notInstalled (env : Env) (sender target : Address)
    (value : Word) (data sig : List Byte) (ext : ExtCall) (cs : ContractState)
    (hl : cs.locked = false)
    (hni : (cs.registry.accountPKPs sender).isInstalled = false) :
    executeFromExecutor env sender target value data sig ext cs =
      (.error .ModuleNotInstalled, cs) := by
  simp [executeFromExecutor, hl, hni]

/-- Witness for C5 at a concrete input: account `8` has no registration in
`reg1`, so execution reverts `ModuleNotInstalled` even though recovery would
succeed on a 65-byte signature. -/
theorem executeFromExecutor_notInstalled_witness :
    executeFromExecutor envA 8 3 0 [] (List.replicate 65 0) extId
        ⟨reg1, false⟩ =
      (.error .ModuleNotInstalled, ⟨reg1, false⟩) :=
  executeFromExecutor_notInstalled envA 8 3 0 [] (List.replicate 65 0) extId
    ⟨reg1, false⟩ rfl rfl

/-- C6: the two install checks run in source order — an existing registration
reverts `ModuleAlreadyInstalled` whatever the claim status of the PKP address
(in particular on double failure), and only an unregistered caller reaches
the claimed-elsewhere check, which reverts `UnauthorizedPKP`. -/
theorem onInstall_check_order (sender p : Address) (k : Word) (s : Registry) :
    ((s.accountPKPs sender).isInstalled = true →
      onInstall sender p k s = (.error .ModuleAlreadyInstalled, s)) ∧
    ((s.accountPKPs sender).isInstalled = false → s.pkpToAccount p ≠ 0 →
      onInstall sender p k s = (.error .UnauthorizedPKP, s)) := by
  constructor
  · intro h
    exact onInstall_already p k h
  · intro h1 h2
    exact onInstall_claimed k h1 h2

/-- Witness for C6 at concrete inputs: in `reg1`, account `7` is installed and
PKP address `9` is claimed, so a re-install by `7` (double failure) reverts
`ModuleAlreadyInstalled`, while a fresh account `8` installing with the
claimed address `9` reverts `UnauthorizedPKP`. -/
theorem onInstall_check_order_witness :
    onInstall 7 9 2 reg1 = (.error .ModuleAlreadyInstalled, reg1) ∧
    onInstall 8 9 2 reg1 = (.error .UnauthorizedPKP, reg1) :=
  ⟨(onInstall_check_order 7 9 2 reg1).1 rfl,
   (onInstall_check_order 8 9 2 reg1).2 rfl (by decide)⟩

/-- C9: `isModuleInstalled` returns false for every type tag other than
`MODULE_TYPE`, and exactly the account's stored `isInstalled` flag for
`MODULE_TYPE`; it is a total pure function of the registry (state-read only,
no failure). -/
theorem isModuleInstalled_spec (s : Registry) (account : Address)
    (moduleTypeTag : Nat) :
    (moduleTypeTag ≠ MODULE_TYPE →
      isModuleInstalled s account moduleTypeTag = false) ∧
    (moduleTypeTag = MODULE_TYPE →
      isModuleInstalled s account moduleTypeTag
        = (s.accountPKPs account).isInstalled) := by
  constructor
  · intro h
    simp [isModuleInstalled, h]
  · intro h
    simp [isModuleInstalled, h]

/-- Witness for C9 at concrete inputs: tag `1` (validator) reads false for the
installed account `7`, tag `2` reads the stored flag. -/
theorem isModuleInstalled_spec_witness :
    isModuleInstalled reg1 7 1 = false ∧
    isModuleInstalled reg1 7 2 = (reg1.accountPKPs 7).isInstalled :=
  ⟨(isModuleInstalled_spec reg1 7 1).1 (by decide),
   (isModuleInstalled_spec reg1 7 2).2 rfl⟩

/-- C7: every reverting invocation of `onInstall`, `onUninstall` or
`executeFromExecutor` leaves the state exactly as it was (no partial write),
and in particular a second install attempt for an installed account reverts
`ModuleAlreadyInstalled` leaving the post-first-install state intact. -/
theorem revert_leaves_state_unchanged :
    (∀ (sender p : Address) (k : Word) (s : Registry) (e : ContractError)
        (s2 : Registry), onInstall sender p k s = (.error e, s2) → s2 = s) ∧
    (∀ (sender : Address) (s : Registry) (e : ContractError) (s2 : Registry),
      onUninstall sender s = (.error e, s2) → s2 = s) ∧
    (∀ (env : Env) (sender target : Address) (value : Word)
        (data sig : List Byte) (ext : ExtCall) (cs : ContractState)
        (e : ContractError) (cs2 : ContractState),
      executeFromExecutor env sender target value data sig ext cs
          = (.error e, cs2) → cs2 = cs) ∧
    (∀ (sender p : Address) (k : Word) (s s1 : Registry) (p2 : Address)
        (k2 : Word) (e : ContractError) (s2 : Registry),
      onInstall sender p k s = (.ok (), s1) →
      onInstall sender p2 k2 s1 = (.error e, s2) →
      e = .ModuleAlreadyInstalled ∧ s2 = s1) := by
  have hi : ∀ (sender p : Address) (k : Word) (s : Registry) (e : ContractError)
      (s2 : Registry), onInstall sender p k s = (.error e, s2) → s2 = s := by
    intro sender p k s e s2 h
    unfold onInstall at h
    split at h
    · exact ((Prod.mk.injEq _ _ _ _ ▸ h).2).symm
    · split at h
      · exact ((Prod.mk.injEq _ _ _ _ ▸ h).2).symm
      · exact absurd (congrArg Prod.fst h) (by simp)
  refine ⟨hi, ?_, ?_, ?_⟩
  · intro sender s e s2 h
    unfold onUninstall at h
    split at h
    · exact absurd (congrArg Prod.fst h) (by simp)
    · exact ((Prod.mk.injEq _ _ _ _ ▸ h).2).symm
  · intro env sender target value data sig ext cs e cs2 h
    unfold executeFromExecutor at h
    split at h
    · exact ((Prod.mk.injEq _ _ _ _ ▸ h).2).symm
    · dsimp only at h
      split at h
      · split at h
        · exact ((Prod.mk.injEq _ _ _ _ ▸ h).2).symm
        · split at h
          · split at h
            · exact ((Prod.mk.injEq _ _ _ _ ▸ h).2).symm
            · exact absurd (congrArg Prod.fst h) (by simp)
          · exact ((Prod.mk.injEq _ _ _ _ ▸ h).2).symm
      · exact ((Prod.mk.injEq _ _ _ _ ▸ h).2).symm
  · intro sender p k s s1 p2 k2 e s2 h1 h2
    obtain ⟨_, _, hs1⟩ := onInstall_ok h1
    have hins : (s1.accountPKPs sender).isInstalled = true := by
      rw [hs1]
      simp
    rw [onInstall_already p2 k2 hins] at h2
    have h3 := Prod.mk.injEq _ _ _ _ ▸ h2
    injection h3.1 with h4
    exact ⟨h4.symm, h3.2.symm⟩

/-- Witness for C7 at concrete inputs: the failing second install of account
`7`, a failing uninstall of the fresh account `8`, and a failing locked
execution all leave their entry state unchanged. -/
theorem revert_leaves_state_unchanged_witness :
    onInstall 7 5 2 reg1 = (.error .ModuleAlreadyInstalled, reg1) ∧
    reg1 = reg1 ∧
    onUninstall 8 reg1 = (.error .ModuleNotInstalled, reg1) ∧
    (⟨reg1, true⟩ : ContractState) = ⟨reg1, true⟩ :=
  ⟨rfl,
   revert_leaves_state_unchanged.1 7 5 2 reg1 .ModuleAlreadyInstalled reg1 rfl,
   rfl,
   revert_leaves_state_unchanged.2.2.1 envA 7 3 0 [] [] extId ⟨reg1, true⟩
     .ReentrancyGuardReentrantCall ⟨reg1, true⟩ rfl⟩

/-- C8: uninstalling clears both the `PKPInfo` record and the reverse index —
`getPKPInfo` then reads the zero record, and a fresh account can re-claim the
same PKP address. -/
theorem uninstall_clears_both_indices (A B S : Address) (kid kid2 : Word)
    (s0 s1 s2 : Registry)
    (hBA : B ≠ A)
    (hinstA : onInstall A S kid s0 = (.ok (), s1))
    (hunin : onUninstall A s1 = (.ok (), s2))
    (hB : (s0.accountPKPs B).isInstalled = false) :
    getPKPInfo s2 A = (0, 0, false) ∧
    onInstall B S kid2 s2 = (.ok (), installedRegistry B S kid2 s2) := by
  obtain ⟨hni, hp0, hs1⟩ := onInstall_ok hinstA
  obtain ⟨hi1, hs2⟩ := onUninstall_ok hunin
  constructor
  · rw [hs2]
    simp [getPKPInfo, PKPInfo.empty]
  · have h1 : (s2.accountPKPs B).isInstalled = false := by
      rw [hs2, hs1]
      simp [hBA, hB]
    have h2 : s2.pkpToAccount S = 0 := by
      rw [hs2, hs1]
      simp
    exact onInstall_succeeds h1 h2

/-- Concrete registry after account `7` uninstalls from `reg1`. -/
def reg2 : Registry :=
  { accountPKPs := fun a => if a = 7 then PKPInfo.empty else reg1.accountPKPs a,
    pkpToAccount := fun q =>
      if q = (reg1.accountPKPs 7).pkpEthAddress then 0 else reg1.pkpToAccount q }

/-- Witness for C8 at concrete inputs: install `7` with PKP `9`, uninstall `7`,
then `getPKPInfo 7` is zeroed and account `8` can install with PKP `9`. -/
theorem uninstall_clears_both_indices_witness :
    getPKPInfo reg2 7 = (0, 0, false) ∧
    onInstall 8 9 2 reg2 = (.ok (), installedRegistry 8 9 2 reg2) :=
  uninstall_clears_both_indices 7 8 9 1 2 Registry.empty reg1 reg2
    (by decide) install1 rfl rfl

/-- C10: in every state reachable from deployment by install, uninstall and
executeFromExecutor invocations, the two mappings are mutually consistent —
an installed account's PKP address maps back to it, a nonzero reverse-index
entry points to an installed account registered with that PKP address, and
hence no two installed accounts share a PKP address. -/
theorem registry_mappings_consistent (s : Registry) (h : Reachable s) :
    (∀ A, (s.accountPKPs A).isInstalled = true →
        s.pkpToAccount (s.accountPKPs A).pkpEthAddress = A) ∧
    (∀ S A2, s.pkpToAccount S = A2 → A2 ≠ 0 →
        (s.accountPKPs A2).isInstalled = true ∧
        (s.accountPKPs A2).pkpEthAddress = S) ∧
    (∀ A B, (s.accountPKPs A).isInstalled = true →
        (s.accountPKPs B).isInstalled = true →
        (s.accountPKPs A).pkpEthAddress = (s.accountPKPs B).pkpEthAddress →
        A = B) := by
  obtain ⟨hfwd, hconv, _⟩ := regInv_reachable h
  refine ⟨hfwd, ?_, ?_⟩
  · intro S A2 hSA hA2
    have h0 : s.pkpToAccount S ≠ 0 := by
      rw [hSA]
      exact hA2
    have := hconv S h0
    rw [hSA] at this
    exact this
  · intro A B hA hB hEq
    have h1 := hfwd A hA
    have h2 := hfwd B hB
    rw [hEq] at h1
    rw [h2] at h1
    exact h1.symm

/-- Witness for C10: the consistency conclusions evaluated at the concrete
reachable state `reg1` (one install from deployment). -/
theorem registry_mappings_consistent_witness :
    (∀ A, (reg1.accountPKPs A).isInstalled = true →
        reg1.pkpToAccount (reg1.accountPKPs A).pkpEthAddress = A) ∧
    (∀ S A2, reg1.pkpToAccount S = A2 → A2 ≠ 0 →
        (reg1.accountPKPs A2).isInstalled = true ∧
        (reg1.accountPKPs A2).pkpEthAddress = S) ∧
    (∀ A B, (reg1.accountPKPs A).isInstalled = true →
        (reg1.accountPKPs B).isInstalled = true →
        (reg1.accountPKPs A).pkpEthAddress = (reg1.accountPKPs B).pkpEthAddress →
        A = B) :=
  registry_mappings_consistent reg1
    (Relation.ReflTransGen.single
      (Step.reg (RStep.install 7 9 1 Registry.empty reg1 (by decide) install1)))

lemma stepAvoiding_rstep {A : Address} {s s2 : Registry}
    (h : StepAvoiding A s s2) : RStep s s2 := by
  cases h with
  | install sender p k s s2 hs hok => exact RStep.install sender p k s s2 hs hok
  | uninstall sender s s2 hns hok => exact RStep.uninstall sender s s2 hok

lemma pkpClaim_preserved {A S : Address} {s s2 : Registry}
    (hinv : RegInv s) (hrev : s.pkpToAccount S = A) (hA : A ≠ 0)
    (hstep : StepAvoiding A s s2) : s2.pkpToAccount S = A := by
  cases hstep with
  | install sender p k s s2 hs hok =>
    obtain ⟨hni, hp0, rfl⟩ := onInstall_ok hok
    have hpS : S ≠ p := by
      intro hEq
      rw [hEq] at hrev
      rw [hp0] at hrev
      exact hA hrev.symm
    simp [hpS, hrev]
  | uninstall sender s s2 hns hok =>
    obtain ⟨hi, rfl⟩ := onUninstall_ok hok
    have hq : S ≠ (s.accountPKPs sender).pkpEthAddress := by
      intro hEq
      have h1 := hinv.1 sender hi
      rw [← hEq] at h1
      rw [hrev] at h1
      exact hns h1.symm
    simp [hq, hrev]

/-- C4: if account `A` installed with PKP address `S` and has not since
uninstalled (any interleaving of installs by anyone and uninstalls by
others), then an install attempt by an uninstalled account `B` with the same
`S` reverts `UnauthorizedPKP` with the state unchanged, and `B` stays
uninstalled. -/
theorem signer_uniqueness (A B S : Address) (kid kid2 : Word)
    (s0 s1 s2 : Registry)
    (hreach : Reachable s0) (hA0 : A ≠ 0) (_hAB : A ≠ B)
    (hinst : onInstall A S kid s0 = (.ok (), s1))
    (htrace : Relation.ReflTransGen (StepAvoiding A) s1 s2)
    (hBnot : (s2.accountPKPs B).isInstalled = false) :
    onInstall B S kid2 s2 = (.error .UnauthorizedPKP, s2) ∧
    isModuleInstalled s2 B MODULE_TYPE = false := by
  have hinv0 := regInv_reachable hreach
  have hinv1 := regInv_install hinv0 hA0 hinst
  have hrev1 : s1.pkpToAccount S = A := by
    obtain ⟨_, _, rfl⟩ := onInstall_ok hinst
    simp
  have key : RegInv s2 ∧ s2.pkpToAccount S = A := by
    clear hBnot
    induction htrace with
    | refl => exact ⟨hinv1, hrev1⟩
    | tail hsteps hstep ih =>
      exact ⟨regInv_rstep ih.1 (stepAvoiding_rstep hstep),
             pkpClaim_preserved ih.1 ih.2 hA0 hstep⟩
  have hS2 : s2.pkpToAccount S ≠ 0 := by
    rw [key.2]
    exact hA0
  refine ⟨onInstall_claimed kid2 hBnot hS2, ?_⟩
  simp [isModuleInstalled, hBnot]

/-- Witness for C4 at concrete inputs: after `7` installs with PKP `9` from
deployment, an install by the fresh account `8` with PKP `9` reverts
`UnauthorizedPKP` and `8` stays uninstalled. -/
theorem signer_uniqueness_witness :
    onInstall 8 9 3 reg1 = (.error .UnauthorizedPKP, reg1) ∧
    isModuleInstalled reg1 8 MODULE_TYPE = false :=
  signer_uniqueness 7 8 9 1 3 Registry.empty reg1 reg1
    Relation.ReflTransGen.refl (by decide) (by decide) install1
    Relation.ReflTransGen.refl rfl

/-- C1: a re-entrant inner invocation of `executeFromExecutor` (the guard is
held during the forwarded call) fails immediately with
`ReentrancyGuardReentrantCall` and leaves the state unchanged, and an outer
invocation whose forwarded call first attempts such a re-entry and then
continues behaves exactly like one whose forwarded call never attempted it. -/
theorem executeFromExecutor_reentrancy (env env2 : Env)
    (sender target : Address) (value : Word) (data sig : List Byte)
    (sender2 target2 : Address) (value2 : Word) (data2 sig2 : List Byte)
    (ext ext2 : ExtCall) (s : ContractState) :
    (∀ t : ContractState, t.locked = true →
        executeFromExecutor env2 sender2 target2 value2 data2 sig2 ext2 t =
          (.error .ReentrancyGuardReentrantCall, t)) ∧
    executeFromExecutor env sender target value data sig
        (fun t => ext
          (executeFromExecutor env2 sender2 target2 value2 data2 sig2 ext2 t).2)
        s =
      executeFromExecutor env sender target value data sig ext s := by
  refine ⟨fun t ht => exec_locked env2 sender2 target2 value2 data2 sig2 ext2 ht,
          ?_⟩
  by_cases hl : s.locked
  · rw [exec_locked env sender target value data sig _ hl,
        exec_locked env sender target value data sig ext hl]
  · have hinner :
        (executeFromExecutor env2 sender2 target2 value2 data2 sig2 ext2
            { s with locked := true }).2 = { s with locked := true } := by
      rw [exec_locked env2 sender2 target2 value2 data2 sig2 ext2 rfl]

    simp [executeFromExecutor, hl, hinner]

/-- Witness for C1 at concrete inputs: with the guard held the inner call
fails leaving the state unchanged, and the outer call with a
re-enter-then-continue forwarded call equals the outer call without the
re-entry attempt. -/
theorem executeFromExecutor_reentrancy_witness :
    executeFromExecutor envA 7 3 0 [] [] extId ⟨reg1, true⟩ =
        (.error .ReentrancyGuardReentrantCall, ⟨reg1, true⟩) ∧
    executeFromExecutor envA 7 3 0 [] []
        (fun t => extId (executeFromExecutor envA 7 3 0 [] [] extId t).2)
        ⟨reg1, false⟩ =
      executeFromExecutor envA 7 3 0 [] [] extId ⟨reg1, false⟩ :=
  ⟨(executeFromExecutor_reentrancy envA envA 7 3 0 [] [] 7 3 0 [] []
      extId extId ⟨reg1, false⟩).1 ⟨reg1, true⟩ rfl,
   (executeFromExecutor_reentrancy envA envA 7 3 0 [] [] 7 3 0 [] []
      extId extId ⟨reg1, false⟩).2⟩

/-- The digest whose signature is verified: the EIP-191 transform of the
operation hash (lines 134-135 of the contract). -/
def operationEthHash (env : Env) (sender target : Address) (value : Word)
    (data : List Byte) : Word :=
  ethSignedMessageHash env.keccak
    (getOperationHash env.keccak sender target value data env.chainid env.self)

/-- C2 counterexample: at a concrete installed account and a concrete input
on which ECDSA recovery fails (the empty signature), `executeFromExecutor`
reverts with the recovery library's own error kind, not with
`InvalidSignature` — refuting the claimed if-and-only-if. -/
theorem malformed_signature_error_kind :
    executeFromExecutor envA 7 3 0 [] [] extId ⟨reg1, false⟩
        = (.error .ECDSARecoveryError, ⟨reg1, false⟩) ∧
    envA.recover (operationEthHash envA 7 3 0 []) [] = none ∧
    ContractError.ECDSARecoveryError ≠ ContractError.InvalidSignature :=
  ⟨rfl, rfl, by decide⟩

/-- C2 amended: for an installed caller (guard free), the call reverts
`InvalidSignature` iff recovery over the prefixed digest succeeds with an
address different from the registered PKP address; when recovery itself
fails the call reverts with the recovery library's error instead; and when
the recovered address equals the registered one, execution proceeds to the
forwarded call. -/
theorem executeFromExecutor_invalidSignature_iff (env : Env)
    (sender target : Address) (value : Word) (data sig : List Byte)
    (ext : ExtCall) (cs : ContractState)
    (hl : cs.locked = false)
    (hi : (cs.registry.accountPKPs sender).isInstalled = true) :
    ((executeFromExecutor env sender target value data sig ext cs).1
        = .error .InvalidSignature ↔
      (∃ a, env.recover (operationEthHash env sender target value data) sig
          = some a ∧
        a ≠ (cs.registry.accountPKPs sender).pkpEthAddress)) ∧
    (env.recover (operationEthHash env sender target value data) sig = none →
      executeFromExecutor env sender target value data sig ext cs
        = (.error .ECDSARecoveryError, cs)) ∧
    (env.recover (operationEthHash env sender target value data) sig
        = some (cs.registry.accountPKPs sender).pkpEthAddress →
      executeFromExecutor env sender target value data sig ext cs
        = (match ext { cs with locked := true } with
           | .error () => (.error .ExecutionFailed, cs)
           | .ok (rd, cs2) => (.ok rd, { cs2 with locked := false }))) := by
  rcases hrec : env.recover (operationEthHash env sender target value data) sig
    with _ | a
  · have hrec2 : env.recover
        (ethSignedMessageHash env.keccak
          (getOperationHash env.keccak sender target value data env.chainid
            env.self)) sig = none := hrec
    have hr : executeFromExecutor env sender target value data sig ext cs
        = (.error .ECDSARecoveryError, cs) := by
      simp [executeFromExecutor, hl, hi, hrec2]
    refine ⟨?_, fun _ => hr, fun habs => absurd habs (by simp)⟩
    rw [hr]
    simp
  · have hrec2 : env.recover
        (ethSignedMessageHash env.keccak
          (getOperationHash env.keccak sender target value data env.chainid
            env.self)) sig = some a := hrec
    by_cases ha : a = (cs.registry.accountPKPs sender).pkpEthAddress
    · subst ha
      have hr : executeFromExecutor env sender target value data sig ext cs
          = (match ext { cs with locked := true } with
             | .error () => (.error .ExecutionFailed, cs)
             | .ok (rd, cs2) => (.ok rd, { cs2 with locked := false })) := by
        simp [executeFromExecutor, hl, hi, hrec2]
      refine ⟨?_, fun habs => absurd habs (by simp), fun _ => hr⟩
      rw [hr]
      constructor
      · intro habs
        rcases hext : ext { cs with locked := true } with u | ⟨rd, cs2⟩ <;>
          rw [hext] at habs <;> simp at habs
      · rintro ⟨b, hb, hbne⟩
        injection hb with hb2
        exact absurd hb2.symm hbne
    · have hr : executeFromExecutor env sender target value data sig ext cs
          = (.error .InvalidSignature, cs) := by
        simp [executeFromExecutor, hl, hi, hrec2, ha]
      refine ⟨?_, fun habs => absurd habs (by simp), fun hsome => ?_⟩
      · rw [hr]
        constructor
        · intro _
          exact ⟨a, rfl, ha⟩
        · intro _
          rfl
      · injection hsome with hs2
        exact absurd hs2 ha

/-- Witness for C2 at a concrete input: with a 65-byte signature recovering
the registered PKP address `9`, execution proceeds to the forwarded call and
returns its data. -/
theorem executeFromExecutor_invalidSignature_iff_witness :
    executeFromExecutor envA 7 3 0 [] (List.replicate 65 0) extId ⟨reg1, false⟩
      = (.ok [], ⟨reg1, false⟩) :=
  (executeFromExecutor_invalidSignature_iff envA 7 3 0 [] (List.replicate 65 0)
      extId ⟨reg1, false⟩ rfl rfl).2.2 rfl

lemma natToBytesBE_length (w n : Nat) : (natToBytesBE w n).length = w := by
  induction w generalizing n with
  | zero => rfl
  | succ w ih => simp [natToBytesBE, ih]

lemma bytesToNat_append_single (xs : List Byte) (b : Byte) :
    bytesToNat (xs ++ [b]) = bytesToNat xs * 256 + b := by
  simp [bytesToNat, List.foldl_append]

lemma bytesToNat_natToBytesBE (w n : Nat) :
    bytesToNat (natToBytesBE w n) = n % 256 ^ w := by
  induction w generalizing n with
  | zero => simp [natToBytesBE, bytesToNat, Nat.mod_one]
  | succ w ih =>
    simp only [natToBytesBE]
    rw [bytesToNat_append_single, ih, ← Nat.mod_mul_right_div_self]
    have h1 : (256 : Nat) ∣ 256 * 256 ^ w := dvd_mul_right 256 (256 ^ w)
    have h2 := Nat.mod_mod_of_dvd n h1
    have h3 := Nat.div_add_mod (n % (256 * 256 ^ w)) 256
    have h4 : (256 : Nat) ^ (w + 1) = 256 * 256 ^ w := by ring
    rw [h4]
    omega

lemma natToBytesBE_injOn {w n m : Nat} (hn : n < 256 ^ w) (hm : m < 256 ^ w)
    (h : natToBytesBE w n = natToBytesBE w m) : n = m := by
  have h2 := congrArg bytesToNat h
  rw [bytesToNat_natToBytesBE, bytesToNat_natToBytesBE,
      Nat.mod_eq_of_lt hn, Nat.mod_eq_of_lt hm] at h2
  exact h2

/-- C3: `getOperationHash` is a deterministic function of its six inputs, and
the packed encoding is unambiguous — for a fixed chain id and module address,
two encodings that agree as byte strings come from the same
(account, target, value, data) tuple, so boundary-shifting collisions between
distinct inputs are impossible.  The bounds are the `uint160`/`uint256`
ranges of the Solidity types. -/
theorem operation_encoding_injective
    (a1 t1 : Address) (v1 : Word) (d1 : List Byte)
    (a2 t2 : Address) (v2 : Word) (d2 : List Byte) (c m : Nat)
    (ha1 : a1 < 2 ^ 160) (ht1 : t1 < 2 ^ 160) (hv1 : v1 < 2 ^ 256)
    (ha2 : a2 < 2 ^ 160) (ht2 : t2 < 2 ^ 160) (hv2 : v2 < 2 ^ 256)
    (heq : encodePackedOperation a1 t1 v1 d1 c m
         = encodePackedOperation a2 t2 v2 d2 c m) :
    (∀ (k2 : List Byte → Word) (a t : Address) (v : Word) (d : List Byte)
        (c2 m2 : Nat),
      getOperationHash k2 a t v d c2 m2 = getOperationHash k2 a t v d c2 m2) ∧
    (a1 = a2 ∧ t1 = t2 ∧ v1 = v2 ∧ d1 = d2) := by
  refine ⟨fun _ _ _ _ _ _ _ => rfl, ?_⟩
  have hpow : (2 : Nat) ^ 160 = 256 ^ 20 := by norm_num
  have hpow2 : (2 : Nat) ^ 256 = 256 ^ 32 := by norm_num
  unfold encodePackedOperation at heq
  have hlen := congrArg List.length heq
  simp only [List.length_append, natToBytesBE_length] at hlen
  have hdlen : d1.length = d2.length := by omega
  simp only [List.append_assoc] at heq
  obtain ⟨hA, heq2⟩ :=
    List.append_inj heq (by simp [natToBytesBE_length])
  obtain ⟨hT, heq3⟩ :=
    List.append_inj heq2 (by simp [natToBytesBE_length])
  obtain ⟨hV, heq4⟩ :=
    List.append_inj heq3 (by simp [natToBytesBE_length])
  obtain ⟨hD, _⟩ := List.append_inj heq4 hdlen
  exact ⟨natToBytesBE_injOn (hpow ▸ ha1) (hpow ▸ ha2) hA,
         natToBytesBE_injOn (hpow ▸ ht1) (hpow ▸ ht2) hT,
         natToBytesBE_injOn (hpow2 ▸ hv1) (hpow2 ▸ hv2) hV,
         hD⟩

/-- Witness for C3 at concrete inputs: both conjuncts evaluated at small
concrete values with the bounds and the encoding equality discharged. -/
theorem operation_encoding_injective_witness :
    (∀ (k2 : List Byte → Word) (a t : Address) (v : Word) (d : List Byte)
        (c2 m2 : Nat),
      getOperationHash k2 a t v d c2 m2 = getOperationHash k2 a t v d c2 m2) ∧
    ((1 : Address) = 1 ∧ (2 : Address) = 2 ∧ (3 : Word) = 3 ∧
      ([4, 5] : List Byte) = [4, 5]) :=
  operation_encoding_injective 1 2 3 [4, 5] 1 2 3 [4, 5] 1 11
    (by norm_num) (by norm_num) (by norm_num) (by norm_num) (by norm_num)
    (by norm_num) rfl

end LitPKP
